import Mathlib

/-
  Verification of the ignore-pattern engine, tree walker, language adapters and
  orchestrator of the fmt tool (src/main.ts).

  Embedding conventions:
  - JavaScript strings are Lean Strings; the JS string operations used by the
    source (trim, startsWith, endsWith, includes, slice, split, lastIndexOf /
    substring) are embedded at the character-list level (String.data).
  - A compiled RegExp is embedded as its test function (String → Bool); the
    globToRegExp library call, which may throw, is an explicit parameter
    compile : String → Option (String → Bool).
  - Filesystem effects (Deno.stat, Deno.readTextFile, Deno.readDir) are
    explicit parameters: an FS record for stat/read, an FSEntry tree for
    directory listings.
  - Subprocess effects (Deno.Command) are an explicit CmdEnv record; the
    adapters additionally return the ordered list of probe / run effects they
    perform, so that statements about which tools were invoked are provable.
-/

/-- Whitespace recognized by the embedded JS String.prototype.trim. -/
def jsWhitespace : List Char := [' ', '\t', '\n', '\r', '\x0b', '\x0c', ' ', '﻿']

/-- Is the character JS whitespace. -/
def isJsSpace (c : Char) : Bool := jsWhitespace.contains c

/-- Trim JS whitespace from both ends of a character list. -/
def trimL (l : List Char) : List Char :=
  ((l.dropWhile isJsSpace).reverse.dropWhile isJsSpace).reverse

/-- Embedded String.prototype.trim. -/
def jsTrim (s : String) : String := ⟨trimL s.data⟩

/-- Embedded String.prototype.startsWith. -/
def jsStartsWith (s pre : String) : Bool := pre.data.isPrefixOf s.data

/-- Embedded String.prototype.endsWith. -/
def jsEndsWith (s suf : String) : Bool := suf.data.isSuffixOf s.data

/-- Embedded String.prototype.includes. -/
def jsIncludes (s sub : String) : Bool := decide (sub.data <:+: s.data)

/-- Embedded String.prototype.slice with one non-negative argument. -/
def jsSlice (s : String) (n : Nat) : String := ⟨s.data.drop n⟩

/-- Embedded String.prototype.slice(0, -1): drop the final character. -/
def jsDropLast (s : String) : String := ⟨s.data.dropLast⟩

/-- Embedded String.prototype.split("\n"). -/
def splitLines (s : String) : List String :=
  (List.splitOn '\n' s.data).map (fun l => (⟨l⟩ : String))

/-- IgnorePattern record of main.ts: the trimmed source text, the compiled
    regex embedded as its test function, and the negation flag. -/
structure IgnorePattern where
  pattern : String
  regex : String → Bool
  negated : Bool

/-- isIgnored of main.ts: linear scan over the rules, every matching rule
    overwrites the decision, so the last matching rule wins. -/
def isIgnored (relativePath : String) (patterns : List IgnorePattern) : Bool :=
  patterns.foldl (fun ignored r => if r.regex relativePath then !r.negated else ignored) false

/-- The glob-pattern normalization of parseIgnorePatterns (main.ts lines
    133-149): a separator-free pattern is prefixed with **/ so it matches
    anywhere, a leading separator anchors to the root and is stripped, a
    trailing separator gets ** appended to cover the whole subtree. -/
def globPatternOf (pattern : String) : String :=
  let g :=
    if !(jsIncludes pattern "/") then "**/" ++ pattern
    else if jsStartsWith pattern "/" then jsSlice pattern 1
    else pattern
  if jsEndsWith g "/" then g ++ "**" else g

/-- One iteration of the parseIgnorePatterns loop: classify a raw line and
    compile it to a rule, or drop it (blank, comment, failed compilation). -/
def ruleOfLine (compile : String → Option (String → Bool)) (line : String) :
    Option IgnorePattern :=
  let trimmed := jsTrim line
  if trimmed == "" || jsStartsWith trimmed "#" then none
  else
    let negated := jsStartsWith trimmed "!"
    let pattern := if negated then jsSlice trimmed 1 else trimmed
    match compile (globPatternOf pattern) with
    | some m => some { pattern := trimmed, regex := m, negated := negated }
    | none => none

/-- parseIgnorePatterns of main.ts. -/
def parseIgnorePatterns (compile : String → Option (String → Bool)) (content : String) :
    List IgnorePattern :=
  (splitLines content).filterMap (ruleOfLine compile)

/-- Filesystem oracle: Deno.stat success, and Deno.readTextFile where none
    models a thrown read error. -/
structure FS where
  stat : String → Bool
  readTextFile : String → Option String

/-- The capture group of the regex used on .gitmodules lines, applied to the
    text after the equals sign: backslash-s-star (.+?) backslash-s-star end
    captures the value trimmed at both ends, except that an all-whitespace
    remainder captures exactly its final whitespace character. -/
def capturePathValue (rest : List Char) : Option (List Char) :=
  match rest.getLast? with
  | none => none
  | some c =>
    let t := trimL rest
    if t.isEmpty then some [c] else some t

/-- Match one .gitmodules line against the path-entry regex of
    findSubmodulePaths (main.ts line 76). -/
def gitmodulesPathOfLine (line : String) : Option String :=
  let l1 := line.data.dropWhile isJsSpace
  if "path".data.isPrefixOf l1 then
    match (l1.drop 4).dropWhile isJsSpace with
    | '=' :: rest => (capturePathValue rest).map (fun v => (⟨v⟩ : String))
    | _ => none
  else none

/-- findSubmodulePaths of main.ts: parse rootDir/.gitmodules for path entries;
    an unreadable file yields no submodules. -/
def findSubmodulePaths (fs : FS) (rootDir : String) : List String :=
  match fs.readTextFile (rootDir ++ "/.gitmodules") with
  | none => []
  | some content => (splitLines content).filterMap gitmodulesPathOfLine

/-- Embedded currentDir.substring(0, currentDir.lastIndexOf("/")): everything
    before the last separator, or the empty string when there is none. -/
def lastSlashTake (l : List Char) : List Char :=
  match l.reverse.findIdx? (fun c => c == '/') with
  | some j => l.take (l.length - 1 - j)
  | none => []

/-- The parent-directory step of findGitignore. -/
def parentDirOf (s : String) : String := ⟨lastSlashTake s.data⟩

/-- findGitignore of main.ts: walk up the directory tree; return the path of
    the first .gitignore found and the directory holding it, or none when the
    filesystem root is reached. -/
def findGitignore (fs : FS) (startDir : String) : Option (String × String) :=
  let filePath := startDir ++ "/.gitignore"
  if fs.stat filePath then some (filePath, startDir)
  else
    let parentDir := parentDirOf startDir
    if h : (parentDir == "" || parentDir == startDir) = true then none
    else findGitignore fs parentDir
termination_by startDir.length
decreasing_by
  cases hfi : startDir.data.reverse.findIdx? (fun c => c == '/') with
  | none =>
    exfalso
    apply h
    show (parentDirOf startDir == "" || parentDirOf startDir == startDir) = true
    have hp : parentDirOf startDir = "" := by
      unfold parentDirOf lastSlashTake
      rw [hfi]
    rw [hp]
    simp
  | some j =>
    have hne : startDir.data ≠ [] := by
      intro h0
      rw [h0] at hfi
      simp at hfi
    have hlen : 0 < startDir.data.length := List.length_pos.mpr hne
    have hsl : startDir.length = startDir.data.length := rfl
    simp only [parentDirOf, lastSlashTake, hfi, String.length_mk, List.length_take]
    omega

/-- The chain of directories findGitignore visits, startDir first. -/
def ancestorChain (startDir : String) : List String :=
  startDir ::
    (let parentDir := parentDirOf startDir
     if h : (parentDir == "" || parentDir == startDir) = true then []
     else ancestorChain parentDir)
termination_by startDir.length
decreasing_by
  cases hfi : startDir.data.reverse.findIdx? (fun c => c == '/') with
  | none =>
    exfalso
    apply h
    show (parentDirOf startDir == "" || parentDirOf startDir == startDir) = true
    have hp : parentDirOf startDir = "" := by
      unfold parentDirOf lastSlashTake
      rw [hfi]
    rw [hp]
    simp
  | some j =>
    have hne : startDir.data ≠ [] := by
      intro h0
      rw [h0] at hfi
      simp at hfi
    have hlen : 0 < startDir.data.length := List.length_pos.mpr hne
    have hsl : startDir.length = startDir.data.length := rfl
    simp only [parentDirOf, lastSlashTake, hfi, String.length_mk, List.length_take]
    omega

/-- Result record of loadIgnorePatterns. -/
structure LoadResult where
  patterns : List IgnorePattern
  rootDir : String
  submodules : List String

/-- The submodule-rule block of loadIgnorePatterns (main.ts lines 179-187):
    each declared path s compiles s/** to a non-negated rule; a failing
    compilation is dropped with a warning. -/
def subRulesOf (compile : String → Option (String → Bool)) (submodules : List String) :
    List IgnorePattern :=
  submodules.filterMap (fun s =>
    (compile (s ++ "/**")).map (fun m => { pattern := s, regex := m, negated := false }))

/-- loadIgnorePatterns of main.ts. -/
def loadIgnorePatterns (compile : String → Option (String → Bool)) (fs : FS)
    (startDir : String) : LoadResult :=
  let result := findGitignore fs startDir
  let rootDir := match result with | some (_, rd) => rd | none => startDir
  let submodules := findSubmodulePaths fs rootDir
  let patterns := subRulesOf compile submodules
  match result with
  | none => { patterns := patterns, rootDir := rootDir, submodules := submodules }
  | some (filePath, rd) =>
    match fs.readTextFile filePath with
    | some content =>
      { patterns := patterns ++ parseIgnorePatterns compile content
        rootDir := rd, submodules := submodules }
    | none => { patterns := patterns, rootDir := rootDir, submodules := submodules }

/-- One iteration of the getRawIgnorePatterns loop (main.ts lines 244-264):
    blank, comment and negation lines are dropped; a leading separator is
    stripped; a trailing /* loses its star. -/
def rawPatternOfLine (line : String) : Option String :=
  let trimmed := jsTrim line
  if trimmed == "" || jsStartsWith trimmed "#" || jsStartsWith trimmed "!" then none
  else
    let p1 := if jsStartsWith trimmed "/" then jsSlice trimmed 1 else trimmed
    let p2 := if jsEndsWith p1 "/*" then jsDropLast p1 else p1
    some p2

/-- getRawIgnorePatterns of main.ts: submodule paths verbatim, then the
    normalized raw lines of the ignore file when it exists and is readable. -/
def getRawIgnorePatterns (fs : FS) (startDir : String) : List String :=
  let result := findGitignore fs startDir
  let rootDir := match result with | some (_, rd) => rd | none => startDir
  let patterns := findSubmodulePaths fs rootDir
  match result with
  | none => patterns
  | some (filePath, _) =>
    match fs.readTextFile filePath with
    | some content => patterns ++ (splitLines content).filterMap rawPatternOfLine
    | none => patterns

/-- The project root that getRawIgnorePatterns and loadIgnorePatterns resolve:
    where the ignore file was found, else the starting directory. -/
def gitRootOf (fs : FS) (startDir : String) : String :=
  match findGitignore fs startDir with
  | some (_, rootDir) => rootDir
  | none => startDir

/-- One Deno.readDir entry with its subtree: a file, a directory with its own
    listing, or an entry that is neither a file nor a directory. -/
inductive FSEntry where
  | file (name : String)
  | dir (name : String) (children : List FSEntry)
  | symlink (name : String)
deriving Repr

/-- The relativePath computation of the findFiles walker (main.ts lines
    338-340). -/
def relOf (rootDir fullPath : String) : String :=
  if jsStartsWith fullPath (rootDir ++ "/") then jsSlice fullPath (rootDir.length + 1)
  else fullPath

mutual

/-- One iteration of the findFiles walk loop over a single directory entry. -/
def walkEntry (ext : String) (patterns : List IgnorePattern) (rootDir : String)
    (currentDir : String) : FSEntry → List String
  | .file name =>
    let fullPath := currentDir ++ "/" ++ name
    let relativePath := relOf rootDir fullPath
    if decide (patterns.length > 0) && isIgnored relativePath patterns then []
    else if jsEndsWith name ext then [fullPath] else []
  | .dir name children =>
    let fullPath := currentDir ++ "/" ++ name
    let relativePath := relOf rootDir fullPath
    if decide (patterns.length > 0) && isIgnored relativePath patterns then []
    else walkList ext patterns rootDir fullPath children
  | .symlink _ => []

/-- The findFiles walk over a directory listing, in order. -/
def walkList (ext : String) (patterns : List IgnorePattern) (rootDir : String)
    (currentDir : String) : List FSEntry → List String
  | [] => []
  | e :: rest =>
    walkEntry ext patterns rootDir currentDir e ++ walkList ext patterns rootDir currentDir rest

end

/-- findFiles of main.ts, over an explicit directory tree. -/
def findFiles (dir ext : String) (patterns : List IgnorePattern) (rootDir : String)
    (entries : List FSEntry) : List String :=
  walkList ext patterns rootDir dir entries

mutual

/-- Well-formedness of a directory tree: no entry name contains a path
    separator (true of every real Deno.readDir entry). -/
def FSEntry.wfB : FSEntry → Bool
  | .file n => !decide ('/' ∈ n.data)
  | .symlink n => !decide ('/' ∈ n.data)
  | .dir n children => !decide ('/' ∈ n.data) && FSEntry.wfListB children

/-- Well-formedness of a directory listing. -/
def FSEntry.wfListB : List FSEntry → Bool
  | [] => true
  | e :: rest => FSEntry.wfB e && FSEntry.wfListB rest

end

/-- Outcome record returned by every language adapter. -/
structure FormatOutcome where
  success : Bool
  error : Option String
deriving Repr, DecidableEq

/-- One observable subprocess effect of an adapter: an availability probe of a
    named executable, or a command invocation with arguments, working
    directory and silent flag. -/
inductive Eff where
  | probe (name : String)
  | run (name : String) (args : List String) (cwd : String) (silent : Bool)
deriving Repr, DecidableEq

/-- Subprocess oracle: which executables the availability probe finds, and the
    (exit success, captured output) of each invocation. -/
structure CmdEnv where
  avail : String → Bool
  exec : String → List String → String → Bool × String

/-- runCommand of main.ts: in silent mode the captured output is returned, in
    inherited mode the output is streamed and the returned text is empty. -/
def runCommand (env : CmdEnv) (name : String) (args : List String) (dir : String)
    (silent : Bool) : Bool × String :=
  let r := env.exec name args dir
  if silent then r else (r.1, "")

/-- runDenoFmt of main.ts, returning its outcome and its effect trace. -/
def runDenoFmt (env : CmdEnv) (fs : FS) (dir : String) (checkMode : Bool) :
    FormatOutcome × List Eff :=
  if !env.avail "deno" then
    ({ success := false
       error := some "deno not found. Install with 'nix-shell -p deno' or use the flake." },
     [Eff.probe "deno"])
  else
    let ignorePatterns := getRawIgnorePatterns fs dir
    let args0 := if checkMode then ["fmt", "--check", "--unstable-component"]
      else ["fmt", "--unstable-component"]
    let args1 :=
      if ignorePatterns.length > 0 then
        args0 ++ ["--ignore=" ++ String.intercalate "," ignorePatterns]
      else args0
    let args := args1 ++ ["."]
    let result := runCommand env "deno" args dir false
    if !result.1 then
      ({ success := false
         error := some (if checkMode then "Files need formatting" else "Formatting failed") },
       [Eff.probe "deno", Eff.run "deno" args dir false])
    else
      ({ success := true, error := none }, [Eff.probe "deno", Eff.run "deno" args dir false])

/-- runAlejandra of main.ts, returning its outcome and its effect trace. -/
def runAlejandra (env : CmdEnv) (entries : List FSEntry) (dir : String) (checkMode : Bool)
    (patterns : List IgnorePattern) (rootDir : String) : FormatOutcome × List Eff :=
  let nixFiles := findFiles dir ".nix" patterns rootDir entries
  if nixFiles.length == 0 then ({ success := true, error := none }, [])
  else if !env.avail "alejandra" then
    ({ success := false
       error := some "alejandra not found. Install with 'nix-shell -p alejandra' or use the flake." },
     [Eff.probe "alejandra"])
  else
    let argsOf := fun (file : String) => if checkMode then ["--check", file] else [file]
    let results := nixFiles.map (fun file => (runCommand env "alejandra" (argsOf file) dir true).1)
    let trace := Eff.probe "alejandra" ::
      nixFiles.map (fun file => Eff.run "alejandra" (argsOf file) dir true)
    if !(results.all (fun r => r)) then
      ({ success := false
         error := some (if checkMode then "Nix files need formatting" else "Nix formatting failed") },
       trace)
    else ({ success := true, error := none }, trace)

/-- runGoFmt of main.ts, returning its outcome and its effect trace. -/
def runGoFmt (env : CmdEnv) (entries : List FSEntry) (dir : String) (checkMode : Bool)
    (patterns : List IgnorePattern) (rootDir : String) : FormatOutcome × List Eff :=
  let goFiles := findFiles dir ".go" patterns rootDir entries
  if goFiles.length == 0 then ({ success := true, error := none }, [])
  else
    let useGoimports := env.avail "goimports"
    let useGofmt := env.avail "gofmt"
    if !useGoimports && !useGofmt then
      ({ success := false
         error := some "No Go formatter found. Install with 'nix-shell -p go gotools' or use the flake." },
       [Eff.probe "goimports", Eff.probe "gofmt"])
    else
      let formatter := if useGoimports then "goimports" else "gofmt"
      let argsOf := fun (file : String) => if checkMode then ["-l", file] else ["-w", file]
      let fileResult := fun (file : String) =>
        if checkMode then
          let result := runCommand env formatter ["-l", file] dir true
          !(decide ((jsTrim result.2).length > 0))
        else (runCommand env formatter ["-w", file] dir false).1
      let results := goFiles.map fileResult
      let trace := Eff.probe "goimports" :: Eff.probe "gofmt" ::
        goFiles.map (fun file => Eff.run formatter (argsOf file) dir checkMode)
      if !(results.all (fun r => r)) then
        ({ success := false
           error := some (if checkMode then "Go files need formatting" else "Go formatting failed") },
         trace)
      else ({ success := true, error := none }, trace)

/-- runPgFormat of main.ts, returning its outcome and its effect trace. -/
def runPgFormat (env : CmdEnv) (entries : List FSEntry) (dir : String) (checkMode : Bool)
    (patterns : List IgnorePattern) (rootDir : String) : FormatOutcome × List Eff :=
  let sqlFiles := findFiles dir ".sql" patterns rootDir entries
  if sqlFiles.length == 0 then ({ success := true, error := none }, [])
  else if !env.avail "pg_format" then
    ({ success := false
       error := some "pg_format not found. Install with 'nix-shell -p pgformatter' or use the flake." },
     [Eff.probe "pg_format"])
  else
    let argsOf := fun (file : String) =>
      if checkMode then ["--check", file] else ["--inplace", file]
    let fileResult := fun (file : String) =>
      if checkMode then (runCommand env "pg_format" ["--check", file] dir true).1
      else (runCommand env "pg_format" ["--inplace", file] dir false).1
    let results := sqlFiles.map fileResult
    let trace := Eff.probe "pg_format" ::
      sqlFiles.map (fun file => Eff.run "pg_format" (argsOf file) dir checkMode)
    if !(results.all (fun r => r)) then
      ({ success := false
         error := some (if checkMode then "SQL files need formatting" else "SQL formatting failed") },
       trace)
    else ({ success := true, error := none }, trace)

/-- hasCargoToml of main.ts. -/
def hasCargoToml (fs : FS) (dir : String) : Bool := fs.stat (dir ++ "/Cargo.toml")

/-- runRustFmt of main.ts, returning its outcome and its effect trace. -/
def runRustFmt (env : CmdEnv) (fs : FS) (entries : List FSEntry) (dir : String)
    (checkMode : Bool) (patterns : List IgnorePattern) (rootDir : String) :
    FormatOutcome × List Eff :=
  let rustFiles := findFiles dir ".rs" patterns rootDir entries
  if rustFiles.length == 0 then ({ success := true, error := none }, [])
  else
    let isCargoProject := hasCargoToml fs dir
    if isCargoProject then
      if !env.avail "cargo" then
        ({ success := false
           error := some "cargo not found. Install with 'nix-shell -p cargo' or use the flake." },
         [Eff.probe "cargo"])
      else
        let argsOf := fun (file : String) =>
          if checkMode then ["fmt", "--", "--check", file] else ["fmt", "--", file]
        let results := rustFiles.map (fun file => (runCommand env "cargo" (argsOf file) dir true).1)
        let trace := Eff.probe "cargo" ::
          rustFiles.map (fun file => Eff.run "cargo" (argsOf file) dir true)
        if !(results.all (fun r => r)) then
          ({ success := false
             error := some (if checkMode then "Rust files need formatting" else "Rust formatting failed") },
           trace)
        else ({ success := true, error := none }, trace)
    else
      if !env.avail "rustfmt" then
        ({ success := false
           error := some "rustfmt not found. Install with 'nix-shell -p rustfmt' or use the flake." },
         [Eff.probe "rustfmt"])
      else
        let argsOf := fun (file : String) =>
          if checkMode then ["--edition", "2024", "--check", file]
          else ["--edition", "2024", file]
        let fileResult := fun (file : String) =>
          if checkMode then (runCommand env "rustfmt" ["--edition", "2024", "--check", file] dir true).1
          else (runCommand env "rustfmt" ["--edition", "2024", file] dir false).1
        let results := rustFiles.map fileResult
        let trace := Eff.probe "rustfmt" ::
          rustFiles.map (fun file => Eff.run "rustfmt" (argsOf file) dir checkMode)
        if !(results.all (fun r => r)) then
          ({ success := false
             error := some (if checkMode then "Rust files need formatting" else "Rust formatting failed") },
           trace)
        else ({ success := true, error := none }, trace)

/-- One settled adapter promise, as delivered by Promise.allSettled in input
    order: rejected with a reason, or fulfilled with an outcome. -/
inductive Settled where
  | rejected (reason : String)
  | fulfilled (value : FormatOutcome)
deriving Repr, DecidableEq

/-- JS truthiness of an optional string: undefined and the empty string are
    falsy. -/
def jsTruthy : Option String → Bool
  | none => false
  | some s => !(s == "")

/-- The fixed declared adapter order of the orchestrator. -/
def formatterNames : List String :=
  ["Deno formatter", "Alejandra", "Go formatter", "SQL formatter", "Rust formatter"]

/-- The error-collection loop of run (main.ts lines 747-753), over name and
    settled result pairs in input order. -/
def collectErrors : List (String × Settled) → List String
  | [] => []
  | (name, Settled.rejected reason) :: rest => (name ++ ": " ++ reason) :: collectErrors rest
  | (name, Settled.fulfilled v) :: rest =>
    if !v.success && jsTruthy v.error then
      (name ++ ": " ++ v.error.getD "") :: collectErrors rest
    else collectErrors rest

/-- The aggregation tail of run of main.ts: the ordered failure lines and the
    exit code (1 when any failure line exists, 0 otherwise). -/
def runModel (results : List Settled) : List String × Nat :=
  let errors := collectErrors (formatterNames.zip results)
  (errors, if errors.length > 0 then 1 else 0)

/-- Spec-side Path Matcher (spec section 4.2): the decision of the last rule
    whose matcher matches the path; no matching rule keeps the path. -/
def lastMatchDecision (relativePath : String) (patterns : List IgnorePattern) : Bool :=
  match patterns.reverse.find? (fun r => r.regex relativePath) with
  | some r => !r.negated
  | none => false

/-- Spec-side normalization of one raw ignore-file line for the whole-tree
    dispatch (claim C8): drop comment, blank and negation lines, strip a
    leading separator, collapse a trailing /* to a trailing separator. -/
def specRawLine (line : String) : Option String :=
  let t := jsTrim line
  if t == "" || jsStartsWith t "#" || jsStartsWith t "!" then none
  else
    let anchored := if jsStartsWith t "/" then jsSlice t 1 else t
    some (if jsEndsWith anchored "/*" then (⟨anchored.data.dropLast.dropLast⟩ : String) ++ "/"
      else anchored)

/-- Spec-side failure lines contributed by one adapter to the orchestrator
    report (spec section 4.7). -/
def lineFor (name : String) : Settled → List String
  | Settled.rejected reason => [name ++ ": " ++ reason]
  | Settled.fulfilled v =>
    if !v.success && jsTruthy v.error then [name ++ ": " ++ v.error.getD ""] else []

/- ===================== helper lemmas ===================== -/

theorem parentDirOf_lt (s : String)
    (h : ¬(parentDirOf s == "" || parentDirOf s == s) = true) :
    (parentDirOf s).length < s.length := by
  cases hfi : s.data.reverse.findIdx? (fun c => c == '/') with
  | none =>
    exfalso
    apply h
    simp [parentDirOf, lastSlashTake, hfi]
  | some j =>
    have hne : s.data ≠ [] := by
      intro h0
      rw [h0] at hfi
      simp at hfi
    have hlen : 0 < s.data.length := List.length_pos.mpr hne
    have hsl : s.length = s.data.length := rfl
    simp only [parentDirOf, lastSlashTake, hfi, String.length_mk, List.length_take]
    omega

theorem jsStartsWith_iff (s pre : String) : jsStartsWith s pre = true ↔ pre.data <+: s.data := by
  simp [jsStartsWith, List.isPrefixOf_iff_prefix]

theorem jsEndsWith_iff (s suf : String) : jsEndsWith s suf = true ↔ suf.data <:+ s.data := by
  simp [jsEndsWith, List.isSuffixOf_iff_suffix]

theorem singleton_infix_iff (c : Char) (l : List Char) : [c] <:+: l ↔ c ∈ l := by
  constructor
  · intro h
    exact List.singleton_sublist.mp h.sublist
  · intro h
    obtain ⟨s, t, rfl⟩ := List.append_of_mem h
    exact ⟨s, t, by simp⟩

theorem jsIncludes_slash_iff (p : String) : jsIncludes p "/" = true ↔ '/' ∈ p.data := by
  have hd : ("/" : String).data = ['/'] := rfl
  rw [jsIncludes, hd, decide_eq_true_eq]
  exact singleton_infix_iff '/' p.data

theorem isIgnored_nil (p : String) : isIgnored p [] = false := rfl

theorem isIgnored_append_single (p : String) (ps : List IgnorePattern) (r : IgnorePattern) :
    isIgnored p (ps ++ [r]) = if r.regex p then !r.negated else isIgnored p ps := by
  unfold isIgnored
  rw [List.foldl_append]
  rfl

/- ===================== C1 ===================== -/

/-- C1: isIgnored returns the decision of the last rule whose matcher matches
    the path (ignored when that rule is not negated, not ignored when it is
    negated), false when no rule matches; appending a matching rule overrides
    whatever the earlier rules decided, so a negated rule after a matching
    broad rule un-ignores the path and a broad rule after a negated rule
    re-ignores it. -/
theorem isIgnored_last_match_wins :
    (∀ (relativePath : String) (patterns : List IgnorePattern),
      isIgnored relativePath patterns = lastMatchDecision relativePath patterns) ∧
    (∀ (relativePath : String) (patterns : List IgnorePattern) (r : IgnorePattern),
      isIgnored relativePath (patterns ++ [r]) =
        if r.regex relativePath then !r.negated else isIgnored relativePath patterns) ∧
    (∀ (relativePath : String) (patterns : List IgnorePattern),
      (∀ r ∈ patterns, r.regex relativePath = false) →
      isIgnored relativePath patterns = false) := by
  have key : ∀ (p : String) (ps : List IgnorePattern), isIgnored p ps = lastMatchDecision p ps := by
    intro p ps
    induction ps using List.reverseRecOn with
    | nil => rfl
    | append_singleton ps r ih =>
      rw [isIgnored_append_single, ih]
      unfold lastMatchDecision
      rw [List.reverse_append]
      simp only [List.reverse_cons, List.reverse_nil, List.nil_append, List.singleton_append,
        List.find?_cons]
      by_cases hm : r.regex p = true
      · simp [hm]
      · simp [hm]
  refine ⟨key, fun p ps r => isIgnored_append_single p ps r, ?_⟩
  intro p ps h
  rw [key]
  unfold lastMatchDecision
  have hnone : ps.reverse.find? (fun r => r.regex p) = none := by
    rw [List.find?_eq_none]
    intro x hx
    simp [h x (List.mem_reverse.mp hx)]
  rw [hnone]

/- ===================== C3 ===================== -/

theorem mem_of_getLast?_eq (l : List Char) (c : Char) (h : l.getLast? = some c) : c ∈ l := by
  have hx : c ∈ l.getLast? := by rw [h]; rfl
  obtain ⟨hne, rfl⟩ := List.mem_getLast?_eq_getLast hx
  exact List.getLast_mem hne

theorem data_ne_nil_of_ne_empty (s : String) (h : s ≠ "") : s.data ≠ [] := by
  intro h0
  apply h
  apply String.ext
  rw [h0]

theorem bang_head_of_starts (line : String) (h : jsStartsWith (jsTrim line) "!" = true) :
    ∃ r, (jsTrim line).data = '!' :: r := by
  rw [jsStartsWith_iff] at h
  have hd : ("!" : String).data = ['!'] := rfl
  rw [hd] at h
  cases hdata : (jsTrim line).data with
  | nil => rw [hdata] at h; exact absurd h (by simp)
  | cons a r =>
    rw [hdata] at h
    have ha := (List.cons_prefix_cons.mp h).1
    exact ⟨r, by rw [← ha]⟩

/-- C3: parseIgnorePatterns derives rules line by line: blank lines and
    comment lines are dropped; a leading bang marks negation and is stripped
    before compilation; a separator-free pattern is compiled against the glob
    with **/ prefixed; a leading separator anchors to the root and is
    stripped; a trailing separator gets ** appended; a line whose compilation
    fails is dropped while all remaining lines are still compiled. -/
theorem parseIgnorePatterns_line_rules :
    ∀ (compile : String → Option (String → Bool)),
    (∀ line, jsTrim line = "" ∨ jsStartsWith (jsTrim line) "#" = true →
      ruleOfLine compile line = none) ∧
    (∀ line, jsStartsWith (jsTrim line) "!" = true →
      ruleOfLine compile line =
        (compile (globPatternOf (jsSlice (jsTrim line) 1))).map
          (fun m => { pattern := jsTrim line, regex := m, negated := true })) ∧
    (∀ pattern, jsIncludes pattern "/" = false → pattern ≠ "" →
      globPatternOf pattern = "**/" ++ pattern) ∧
    (∀ pattern, jsStartsWith pattern "/" = true →
      globPatternOf pattern =
        (if jsEndsWith (jsSlice pattern 1) "/" then jsSlice pattern 1 ++ "**"
         else jsSlice pattern 1)) ∧
    (∀ pattern, jsEndsWith pattern "/" = true → pattern ≠ "/" →
      globPatternOf pattern =
        (if jsStartsWith pattern "/" then jsSlice pattern 1 else pattern) ++ "**") ∧
    (∀ line, ¬(jsTrim line = "" ∨ jsStartsWith (jsTrim line) "#" = true) →
      compile (globPatternOf (if jsStartsWith (jsTrim line) "!" then jsSlice (jsTrim line) 1
        else jsTrim line)) = none →
      ruleOfLine compile line = none) ∧
    (∀ (content : String) (ls1 ls2 : List String) (bad : String),
      splitLines content = ls1 ++ bad :: ls2 → ruleOfLine compile bad = none →
      parseIgnorePatterns compile content =
        ls1.filterMap (ruleOfLine compile) ++ ls2.filterMap (ruleOfLine compile)) := by
  intro compile
  refine ⟨?_, ?_, ?_, ?_, ?_, ?_, ?_⟩
  · intro line h
    unfold ruleOfLine
    rcases h with h | h
    · simp [h]
    · simp [h]
  · intro line h
    obtain ⟨r, hr⟩ := bang_head_of_starts line h
    have hne : ((jsTrim line) == "") = false := by
      rw [beq_eq_false_iff_ne]
      intro h0
      rw [h0] at hr
      simp at hr
    have hhash : jsStartsWith (jsTrim line) "#" = false := by
      by_contra hx
      rw [Bool.not_eq_false, jsStartsWith_iff] at hx
      have hd : ("#" : String).data = ['#'] := rfl
      rw [hd, hr] at hx
      have := (List.cons_prefix_cons.mp hx).1
      simp at this
    unfold ruleOfLine
    simp only [hne, hhash, h, Bool.or_false, Bool.false_or, if_false, Bool.false_eq_true,
      if_true]
    cases hc : compile (globPatternOf (jsSlice (jsTrim line) 1)) <;> simp [hc]
  · intro pattern hns hne
    have hpd : pattern.data ≠ [] := data_ne_nil_of_ne_empty pattern hne
    have hend : jsEndsWith ("**/" ++ pattern) "/" = false := by
      by_contra hx
      rw [Bool.not_eq_false, jsEndsWith_iff] at hx
      have hd : ("/" : String).data = ['/'] := rfl
      rw [hd] at hx
      obtain ⟨q, hq⟩ := hx
      have h1 : (("**/" ++ pattern).data).getLast? = pattern.data.getLast? := by
        rw [String.data_append]
        exact List.getLast?_append_of_ne_nil _ hpd
      have h2 : (q ++ ['/']).getLast? = some '/' := List.getLast?_concat q
      rw [hq, h1] at h2
      have hmem := mem_of_getLast?_eq pattern.data '/' h2
      rw [← jsIncludes_slash_iff] at hmem
      rw [hns] at hmem
      exact Bool.false_ne_true hmem
    simp only [globPatternOf, hns, Bool.not_false, if_true, hend, Bool.false_eq_true, if_false]
  · intro pattern hs
    have hinc : jsIncludes pattern "/" = true := by
      rw [jsIncludes_slash_iff]
      rw [jsStartsWith_iff] at hs
      obtain ⟨t, ht⟩ := hs
      have hd : ("/" : String).data = ['/'] := rfl
      rw [hd] at ht
      rw [← ht]
      simp
    simp only [globPatternOf, hinc, Bool.not_true, Bool.false_eq_true, if_false, hs, if_true]
  · intro pattern hE hne1
    rw [jsEndsWith_iff] at hE
    have hd : ("/" : String).data = ['/'] := rfl
    rw [hd] at hE
    obtain ⟨t, ht⟩ := hE
    have hinc : jsIncludes pattern "/" = true := by
      rw [jsIncludes_slash_iff, ← ht]
      simp
    cases hsw : jsStartsWith pattern "/" with
    | true =>
      have hpre := (jsStartsWith_iff pattern "/").mp hsw
      rw [hd] at hpre
      obtain ⟨r, hrd⟩ := hpre
      cases t with
      | nil =>
        exfalso
        apply hne1
        apply String.ext
        rw [← ht]
        rfl
      | cons a t' =>
        have hdata : pattern.data = '/' :: r := by rw [← hrd]; rfl
        have hat : a :: (t' ++ ['/']) = '/' :: r := by
          rw [← hdata, ← ht]
          rfl
        have har : r = t' ++ ['/'] := (List.cons.injEq _ _ _ _ ▸ hat).2.symm
        have hslice : (jsSlice pattern 1).data = t' ++ ['/'] := by
          simp [jsSlice, hdata, har]
        have hends : jsEndsWith (jsSlice pattern 1) "/" = true := by
          rw [jsEndsWith_iff, hd, hslice]
          exact ⟨t', rfl⟩
        simp only [globPatternOf, hinc, Bool.not_true, Bool.false_eq_true, if_false, hsw,
          if_true, hends]
    | false =>
      have hends : jsEndsWith pattern "/" = true := by
        rw [jsEndsWith_iff, hd]
        exact ⟨t, ht⟩
      simp only [globPatternOf, hinc, Bool.not_true, Bool.false_eq_true, if_false, hsw,
        if_true, hends]
  · intro line hnb hc
    unfold ruleOfLine
    have h1 : ((jsTrim line) == "") = false := by
      rw [beq_eq_false_iff_ne]
      intro h0
      exact hnb (Or.inl h0)
    have h2 : jsStartsWith (jsTrim line) "#" = false := by
      by_contra hx
      rw [Bool.not_eq_false] at hx
      exact hnb (Or.inr hx)
    simp only [h1, h2, Bool.or_false, Bool.false_eq_true, if_false]
    rw [hc]
  · intro content ls1 ls2 bad hsplit hbad
    unfold parseIgnorePatterns
    rw [hsplit, List.filterMap_append]
    simp [List.filterMap_cons, hbad]

/-- C3 witness: the line rules evaluated on concrete lines: a comment line is
    dropped, a negation line compiles its stripped pattern, a bare name gets
    the **/ prefix, a leading separator anchors, a trailing separator appends
    **, and a line failing compilation is dropped without affecting its
    neighbours. -/
theorem parseIgnorePatterns_line_rules_witness :
    (ruleOfLine (fun g => if g == "**/bad" then none
        else some (fun p => p == g)) "  # note" = none) ∧
    (ruleOfLine (fun g => if g == "**/bad" then none
        else some (fun p => p == g)) " !keep.tmp" =
      ((fun g => if g == "**/bad" then none else some (fun p => p == g))
          (globPatternOf (jsSlice (jsTrim " !keep.tmp") 1))).map
        (fun m => { pattern := jsTrim " !keep.tmp", regex := m, negated := true })) ∧
    (globPatternOf "node_modules" = "**/" ++ "node_modules") ∧
    (globPatternOf "/dist" =
      (if jsEndsWith (jsSlice "/dist" 1) "/" then jsSlice "/dist" 1 ++ "**"
       else jsSlice "/dist" 1)) ∧
    (globPatternOf "build/" =
      (if jsStartsWith "build/" "/" then jsSlice "build/" 1 else "build/") ++ "**") ∧
    (parseIgnorePatterns (fun g => if g == "**/bad" then none
        else some (fun p => p == g)) "a\nbad\nb" =
      List.filterMap (ruleOfLine (fun g => if g == "**/bad" then none
        else some (fun p => p == g))) ["a"] ++
      List.filterMap (ruleOfLine (fun g => if g == "**/bad" then none
        else some (fun p => p == g))) ["b"]) := by
  refine ⟨?_, ?_, ?_, ?_, ?_, ?_⟩
  · exact (parseIgnorePatterns_line_rules (fun g => if g == "**/bad" then none else some (fun p => p == g))).1 "  # note" (Or.inr (by decide))
  · exact (parseIgnorePatterns_line_rules (fun g => if g == "**/bad" then none else some (fun p => p == g))).2.1 " !keep.tmp" (by decide)
  · exact (parseIgnorePatterns_line_rules (fun g => if g == "**/bad" then none else some (fun p => p == g))).2.2.1 "node_modules" (by decide) (by decide)
  · exact (parseIgnorePatterns_line_rules (fun g => if g == "**/bad" then none else some (fun p => p == g))).2.2.2.1 "/dist" (by decide)
  · exact (parseIgnorePatterns_line_rules (fun g => if g == "**/bad" then none else some (fun p => p == g))).2.2.2.2.1 "build/" (by decide) (by decide)
  · exact (parseIgnorePatterns_line_rules (fun g => if g == "**/bad" then none else some (fun p => p == g))).2.2.2.2.2.2 "a\nbad\nb" ["a"] ["b"] "bad"
      (by decide) ((parseIgnorePatterns_line_rules (fun g => if g == "**/bad" then none else some (fun p => p == g))).2.2.2.2.2.1 "bad" (by decide) rfl)

/- ===================== C10 ===================== -/

theorem dropWhile_dropWhile_eq (p : Char → Bool) (l : List Char) :
    List.dropWhile p (List.dropWhile p l) = List.dropWhile p l := by
  induction l with
  | nil => rfl
  | cons a t ih =>
    by_cases h : p a = true
    · simp [List.dropWhile_cons, h, ih]
    · simp [List.dropWhile_cons, h]

theorem dropWhile_fixed_of_initial (p : Char → Bool) (A C : List Char)
    (hA : List.dropWhile p A = A) (hC : C <+: A) : List.dropWhile p C = C := by
  cases C with
  | nil => rfl
  | cons c C' =>
    obtain ⟨t, ht⟩ := hC
    have hpc : p c = false := by
      by_contra hx
      rw [Bool.not_eq_false] at hx
      rw [← ht, List.cons_append, List.dropWhile_cons, if_pos hx] at hA
      have hlen : (List.dropWhile p (C' ++ t)).length ≤ (C' ++ t).length :=
        (List.dropWhile_suffix p).sublist.length_le
      have hthis := congrArg List.length hA
      have hcons := List.length_cons c (C' ++ t)
      omega
    simp [List.dropWhile_cons, hpc]

theorem trimL_idem (l : List Char) : trimL (trimL l) = trimL l := by
  unfold trimL
  have hAfix := dropWhile_dropWhile_eq isJsSpace l
  have hpre : ((l.dropWhile isJsSpace).reverse.dropWhile isJsSpace).reverse <+:
      l.dropWhile isJsSpace := by
    conv_rhs => rw [← List.reverse_reverse (l.dropWhile isJsSpace)]
    exact List.reverse_prefix.mpr (List.dropWhile_suffix isJsSpace)
  rw [dropWhile_fixed_of_initial isJsSpace _ _ hAfix hpre]
  rw [List.reverse_reverse]
  rw [dropWhile_dropWhile_eq]

theorem jsTrim_idem (s : String) : jsTrim (jsTrim s) = jsTrim s :=
  String.ext (trimL_idem s.data)

theorem ruleOfLine_some_pattern (compile : String → Option (String → Bool)) (l : String)
    (r : IgnorePattern) (hr : ruleOfLine compile l = some r) : r.pattern = jsTrim l := by
  simp only [ruleOfLine] at hr
  split at hr
  · exact absurd hr (by simp)
  · split at hr
    · injection hr with h2
      rw [← h2]
    · exact absurd hr (by simp)

theorem ruleOfLine_neg_of_bang (compile : String → Option (String → Bool)) (l : String)
    (h : jsStartsWith (jsTrim l) "!" = true) (r : IgnorePattern)
    (hr : ruleOfLine compile l = some r) : r.negated = true := by
  simp only [ruleOfLine] at hr
  split at hr
  · exact absurd hr (by simp)
  · rw [h] at hr
    split at hr
    · injection hr with h2
      rw [← h2]
    · exact absurd hr (by simp)

/-- C10: every ignore-file line is whitespace-trimmed before classification in
    both parseIgnorePatterns and getRawIgnorePatterns: the produced rule and
    the produced raw pattern depend only on the trimmed line, a
    whitespace-only line counts as blank, leading whitespace before a hash or
    a bang still classifies the line as a comment or a negation, and a
    produced rule stores the trimmed text, which trims to itself. -/
theorem lines_trimmed_before_classification :
    ∀ (compile : String → Option (String → Bool)),
    (∀ l1 l2, jsTrim l1 = jsTrim l2 → ruleOfLine compile l1 = ruleOfLine compile l2) ∧
    (∀ l1 l2, jsTrim l1 = jsTrim l2 → rawPatternOfLine l1 = rawPatternOfLine l2) ∧
    (∀ l, jsTrim l = "" → ruleOfLine compile l = none ∧ rawPatternOfLine l = none) ∧
    (∀ l, jsStartsWith (jsTrim l) "#" = true →
      ruleOfLine compile l = none ∧ rawPatternOfLine l = none) ∧
    (∀ l, jsStartsWith (jsTrim l) "!" = true →
      rawPatternOfLine l = none ∧
      (∀ r, ruleOfLine compile l = some r → r.negated = true)) ∧
    (∀ l r, ruleOfLine compile l = some r →
      r.pattern = jsTrim l ∧ jsTrim r.pattern = r.pattern) := by
  intro compile
  refine ⟨?_, ?_, ?_, ?_, ?_, ?_⟩
  · intro l1 l2 h
    unfold ruleOfLine
    rw [h]
  · intro l1 l2 h
    unfold rawPatternOfLine
    rw [h]
  · intro l h
    constructor
    · unfold ruleOfLine
      simp [h]
    · unfold rawPatternOfLine
      simp [h]
  · intro l h
    constructor
    · unfold ruleOfLine
      simp [h]
    · unfold rawPatternOfLine
      simp [h]
  · intro l h
    refine ⟨?_, fun r hr => ruleOfLine_neg_of_bang compile l h r hr⟩
    unfold rawPatternOfLine
    simp [h]
  · intro l r hr
    have h1 := ruleOfLine_some_pattern compile l r hr
    refine ⟨h1, ?_⟩
    rw [h1]
    exact jsTrim_idem l

/-- C10 witness: the trimming properties at concrete lines: padded and bare
    lines classify identically, a whitespace-only line is blank, padded
    comment and negation markers are recognized, and a produced rule stores
    the trimmed text. -/
theorem lines_trimmed_before_classification_witness :
    (ruleOfLine (fun g => some (fun p => p == g)) "  foo " =
      ruleOfLine (fun g => some (fun p => p == g)) "foo") ∧
    (rawPatternOfLine "  /dist " = rawPatternOfLine "/dist") ∧
    (ruleOfLine (fun g => some (fun p => p == g)) "   " = none) ∧
    (rawPatternOfLine "  # note" = none) ∧
    (rawPatternOfLine "  !keep" = none) ∧
    ((IgnorePattern.mk "keep" (fun p => p == globPatternOf "keep") false).pattern =
        jsTrim "  keep " ∧
      jsTrim (IgnorePattern.mk "keep" (fun p => p == globPatternOf "keep") false).pattern =
        (IgnorePattern.mk "keep" (fun p => p == globPatternOf "keep") false).pattern) := by
  refine ⟨?_, ?_, ?_, ?_, ?_, ?_⟩
  · exact (lines_trimmed_before_classification (fun g => some (fun p => p == g))).1
      "  foo " "foo" (by decide)
  · exact (lines_trimmed_before_classification (fun g => some (fun p => p == g))).2.1
      "  /dist " "/dist" (by decide)
  · exact ((lines_trimmed_before_classification (fun g => some (fun p => p == g))).2.2.1
      "   " (by decide)).1
  · exact ((lines_trimmed_before_classification (fun g => some (fun p => p == g))).2.2.2.1
      "  # note" (by decide)).2
  · exact ((lines_trimmed_before_classification (fun g => some (fun p => p == g))).2.2.2.2.1
      "  !keep" (by decide)).1
  · exact (lines_trimmed_before_classification (fun g => some (fun p => p == g))).2.2.2.2.2
      "  keep " (IgnorePattern.mk "keep" (fun p => p == globPatternOf "keep") false) rfl

/- ===================== C8 ===================== -/

theorem rawPatternOfLine_eq_spec (line : String) : rawPatternOfLine line = specRawLine line := by
  unfold rawPatternOfLine specRawLine
  dsimp only
  by_cases hc : ((jsTrim line == "") || jsStartsWith (jsTrim line) "#"
      || jsStartsWith (jsTrim line) "!") = true
  · rw [if_pos hc, if_pos hc]
  · rw [if_neg hc, if_neg hc]
    by_cases he : jsEndsWith (if jsStartsWith (jsTrim line) "/" = true
        then jsSlice (jsTrim line) 1 else jsTrim line) "/*" = true
    · rw [if_pos he, if_pos he]
      congr 1
      have hsfx := (jsEndsWith_iff _ "/*").mp he
      have hd : ("/*" : String).data = ['/', '*'] := rfl
      rw [hd] at hsfx
      obtain ⟨t, ht⟩ := hsfx
      apply String.ext
      rw [String.data_append]
      show (if jsStartsWith (jsTrim line) "/" = true
        then jsSlice (jsTrim line) 1 else jsTrim line).data.dropLast =
        (if jsStartsWith (jsTrim line) "/" = true
          then jsSlice (jsTrim line) 1 else jsTrim line).data.dropLast.dropLast
          ++ ("/" : String).data
      rw [← ht]
      have hsplit2 : t ++ ['/', '*'] = (t ++ ['/']) ++ ['*'] := by simp
      rw [hsplit2, List.dropLast_concat, List.dropLast_concat]
    · rw [if_neg he, if_neg he]

/-- C8: getRawIgnorePatterns maps the raw ignore-file lines by dropping
    comment lines, blank lines and negation lines, stripping a leading
    separator and collapsing a trailing slash-star suffix to a bare trailing separator,
    preserving the order of the remaining lines; the mapped lines follow the
    submodule paths in the returned list. -/
theorem getRawIgnorePatterns_maps_lines :
    (∀ line, rawPatternOfLine line = specRawLine line) ∧
    (∀ (fs : FS) (startDir filePath rootDir content : String),
      findGitignore fs startDir = some (filePath, rootDir) →
      fs.readTextFile filePath = some content →
      getRawIgnorePatterns fs startDir =
        findSubmodulePaths fs rootDir ++ (splitLines content).filterMap specRawLine) := by
  constructor
  · exact rawPatternOfLine_eq_spec
  · intro fs startDir filePath rootDir content hfind hread
    simp only [getRawIgnorePatterns, hfind, hread]
    rw [funext rawPatternOfLine_eq_spec]

/-- C8 witness: on a concrete tree whose ignore file holds a comment, an
    anchored star pattern, a bare name and a negation, the raw list equals the
    submodule paths followed by the spec mapping of the lines. -/
theorem getRawIgnorePatterns_maps_lines_witness :
    getRawIgnorePatterns
      { stat := fun p => p == "r/.gitignore"
        readTextFile := fun p => if p == "r/.gitignore"
          then some "#c\n/dist/*\nnode_modules\n!x" else none } "r" =
      findSubmodulePaths
        { stat := fun p => p == "r/.gitignore"
          readTextFile := fun p => if p == "r/.gitignore"
            then some "#c\n/dist/*\nnode_modules\n!x" else none } "r" ++
      (splitLines "#c\n/dist/*\nnode_modules\n!x").filterMap specRawLine :=
  getRawIgnorePatterns_maps_lines.2
    { stat := fun p => p == "r/.gitignore"
      readTextFile := fun p => if p == "r/.gitignore"
        then some "#c\n/dist/*\nnode_modules\n!x" else none }
    "r" "r/.gitignore" "r" "#c\n/dist/*\nnode_modules\n!x"
    (by simp [findGitignore]) rfl

/- ===================== C5 ===================== -/

theorem collectErrors_cons (name : String) (s : Settled) (rest : List (String × Settled)) :
    collectErrors ((name, s) :: rest) = lineFor name s ++ collectErrors rest := by
  cases s with
  | rejected reason => rfl
  | fulfilled v =>
    by_cases h : (!v.success && jsTruthy v.error) = true
    · simp [collectErrors, lineFor, h]
    · simp [collectErrors, lineFor, h]

/-- C5: the orchestrator's failure report lists one line per failing adapter
    in the fixed declared adapter order (Deno, Alejandra, Go, SQL, Rust), a
    rejected adapter promise is rendered as a name-colon-message line rather
    than aborting the others, and the exit code is 1 exactly when the failure
    list is non-empty. -/
theorem run_reports_in_declared_order :
    (∀ r1 r2 r3 r4 r5 : Settled,
      runModel [r1, r2, r3, r4, r5] =
        (lineFor "Deno formatter" r1 ++ lineFor "Alejandra" r2 ++ lineFor "Go formatter" r3 ++
            lineFor "SQL formatter" r4 ++ lineFor "Rust formatter" r5,
          if (lineFor "Deno formatter" r1 ++ lineFor "Alejandra" r2 ++
              lineFor "Go formatter" r3 ++ lineFor "SQL formatter" r4 ++
              lineFor "Rust formatter" r5).length > 0 then 1 else 0)) ∧
    (∀ (name reason : String), lineFor name (Settled.rejected reason) = [name ++ ": " ++ reason]) ∧
    (∀ results : List Settled, (runModel results).2 = 1 ↔ (runModel results).1 ≠ []) := by
  refine ⟨?_, ?_, ?_⟩
  · intro r1 r2 r3 r4 r5
    have hz : formatterNames.zip [r1, r2, r3, r4, r5] =
        [("Deno formatter", r1), ("Alejandra", r2), ("Go formatter", r3), ("SQL formatter", r4),
          ("Rust formatter", r5)] := rfl
    have hnil : collectErrors [] = [] := rfl
    simp [runModel, hz, collectErrors_cons, hnil, List.append_assoc]
  · intro name reason
    rfl
  · intro results
    unfold runModel
    dsimp only
    by_cases h : collectErrors (formatterNames.zip results) = []
    · simp [h]
    · have hpos : 0 < (collectErrors (formatterNames.zip results)).length :=
        List.length_pos.mpr h
      simp [h, hpos]

/-- C5 witness: with the first adapter rejected, the third failing with a
    message and the rest succeeding, the report holds exactly the two lines in
    declared order and the exit code is 1. -/
theorem run_reports_in_declared_order_witness :
    runModel [Settled.rejected "boom", Settled.fulfilled { success := true, error := none },
        Settled.fulfilled { success := false, error := some "Go files need formatting" },
        Settled.fulfilled { success := true, error := none },
        Settled.fulfilled { success := true, error := none }] =
      (lineFor "Deno formatter" (Settled.rejected "boom") ++
        lineFor "Alejandra" (Settled.fulfilled { success := true, error := none }) ++
        lineFor "Go formatter"
          (Settled.fulfilled { success := false, error := some "Go files need formatting" }) ++
        lineFor "SQL formatter" (Settled.fulfilled { success := true, error := none }) ++
        lineFor "Rust formatter" (Settled.fulfilled { success := true, error := none }),
        if (lineFor "Deno formatter" (Settled.rejected "boom") ++
            lineFor "Alejandra" (Settled.fulfilled { success := true, error := none }) ++
            lineFor "Go formatter"
              (Settled.fulfilled { success := false, error := some "Go files need formatting" }) ++
            lineFor "SQL formatter" (Settled.fulfilled { success := true, error := none }) ++
            lineFor "Rust formatter" (Settled.fulfilled { success := true, error := none })).length
            > 0 then 1 else 0) :=
  run_reports_in_declared_order.1 (Settled.rejected "boom")
    (Settled.fulfilled { success := true, error := none })
    (Settled.fulfilled { success := false, error := some "Go files need formatting" })
    (Settled.fulfilled { success := true, error := none })
    (Settled.fulfilled { success := true, error := none })

/- ===================== C4 ===================== -/

/-- C4: for every discovering adapter (Alejandra, Go, SQL, Rust): zero
    discovered files of the adapter's extension means immediate success with
    an empty effect trace (no probe, no invocation); discovered files with no
    eligible tool on the search path means failure with an error message
    containing install guidance. -/
theorem adapters_skip_or_report_missing_tool :
    ∀ (env : CmdEnv) (fs : FS) (entries : List FSEntry) (dir : String) (checkMode : Bool)
      (patterns : List IgnorePattern) (rootDir : String),
    ((findFiles dir ".nix" patterns rootDir entries = [] →
      runAlejandra env entries dir checkMode patterns rootDir =
        ({ success := true, error := none }, [])) ∧
     (findFiles dir ".nix" patterns rootDir entries ≠ [] → env.avail "alejandra" = false →
      (runAlejandra env entries dir checkMode patterns rootDir).1.success = false ∧
      ∃ msg, (runAlejandra env entries dir checkMode patterns rootDir).1.error = some msg ∧
        jsIncludes msg "Install" = true)) ∧
    ((findFiles dir ".go" patterns rootDir entries = [] →
      runGoFmt env entries dir checkMode patterns rootDir =
        ({ success := true, error := none }, [])) ∧
     (findFiles dir ".go" patterns rootDir entries ≠ [] → env.avail "goimports" = false →
      env.avail "gofmt" = false →
      (runGoFmt env entries dir checkMode patterns rootDir).1.success = false ∧
      ∃ msg, (runGoFmt env entries dir checkMode patterns rootDir).1.error = some msg ∧
        jsIncludes msg "Install" = true)) ∧
    ((findFiles dir ".sql" patterns rootDir entries = [] →
      runPgFormat env entries dir checkMode patterns rootDir =
        ({ success := true, error := none }, [])) ∧
     (findFiles dir ".sql" patterns rootDir entries ≠ [] → env.avail "pg_format" = false →
      (runPgFormat env entries dir checkMode patterns rootDir).1.success = false ∧
      ∃ msg, (runPgFormat env entries dir checkMode patterns rootDir).1.error = some msg ∧
        jsIncludes msg "Install" = true)) ∧
    ((findFiles dir ".rs" patterns rootDir entries = [] →
      runRustFmt env fs entries dir checkMode patterns rootDir =
        ({ success := true, error := none }, [])) ∧
     (findFiles dir ".rs" patterns rootDir entries ≠ [] → env.avail "cargo" = false →
      env.avail "rustfmt" = false →
      (runRustFmt env fs entries dir checkMode patterns rootDir).1.success = false ∧
      ∃ msg, (runRustFmt env fs entries dir checkMode patterns rootDir).1.error = some msg ∧
        jsIncludes msg "Install" = true)) := by
  intro env fs entries dir checkMode patterns rootDir
  refine ⟨⟨?_, ?_⟩, ⟨?_, ?_⟩, ⟨?_, ?_⟩, ⟨?_, ?_⟩⟩
  · intro h
    unfold runAlejandra
    rw [h]
    rfl
  · intro h ha
    have hlen : ((findFiles dir ".nix" patterns rootDir entries).length == 0) = false := by
      simp [List.length_eq_zero, h]
    unfold runAlejandra
    dsimp only
    rw [hlen, ha]
    exact ⟨rfl, _, rfl, by decide⟩
  · intro h
    unfold runGoFmt
    rw [h]
    rfl
  · intro h ha hb
    have hlen : ((findFiles dir ".go" patterns rootDir entries).length == 0) = false := by
      simp [List.length_eq_zero, h]
    unfold runGoFmt
    dsimp only
    rw [hlen, ha, hb]
    exact ⟨rfl, _, rfl, by decide⟩
  · intro h
    unfold runPgFormat
    rw [h]
    rfl
  · intro h ha
    have hlen : ((findFiles dir ".sql" patterns rootDir entries).length == 0) = false := by
      simp [List.length_eq_zero, h]
    unfold runPgFormat
    dsimp only
    rw [hlen, ha]
    exact ⟨rfl, _, rfl, by decide⟩
  · intro h
    unfold runRustFmt
    rw [h]
    rfl
  · intro h ha hb
    have hlen : ((findFiles dir ".rs" patterns rootDir entries).length == 0) = false := by
      simp [List.length_eq_zero, h]
    unfold runRustFmt
    dsimp only
    rw [hlen, ha, hb]
    by_cases hc : hasCargoToml fs dir = true
    · rw [hc]
      exact ⟨rfl, _, rfl, by decide⟩
    · rw [Bool.not_eq_true] at hc
      rw [hc]
      exact ⟨rfl, _, rfl, by decide⟩

/-- C4 witness: with no tool available anywhere, an empty tree makes the Nix
    adapter succeed with no effects, and a tree holding one Go file makes the
    Go adapter fail with install guidance in its message. -/
theorem adapters_skip_or_report_missing_tool_witness :
    (runAlejandra { avail := fun _ => false, exec := fun _ _ _ => (true, "") } [] "d" false [] "d" =
      ({ success := true, error := none }, [])) ∧
    ((runGoFmt { avail := fun _ => false, exec := fun _ _ _ => (true, "") }
        [FSEntry.file "a.go"] "d" false [] "d").1.success = false ∧
      ∃ msg, (runGoFmt { avail := fun _ => false, exec := fun _ _ _ => (true, "") }
        [FSEntry.file "a.go"] "d" false [] "d").1.error = some msg ∧
        jsIncludes msg "Install" = true) :=
  ⟨(adapters_skip_or_report_missing_tool { avail := fun _ => false, exec := fun _ _ _ => (true, "") }
      { stat := fun _ => false, readTextFile := fun _ => none } [] "d" false [] "d").1.1 rfl,
   (adapters_skip_or_report_missing_tool { avail := fun _ => false, exec := fun _ _ _ => (true, "") }
      { stat := fun _ => false, readTextFile := fun _ => none } [FSEntry.file "a.go"] "d" false []
      "d").2.1.2 (by decide) rfl rfl⟩

/- ===================== C6 ===================== -/

/-- C6: in the rule list produced by loadIgnorePatterns every
    submodule-derived rule is non-negated and compiled from path/**, the list
    is exactly the submodule block followed by the ignore-file block (each
    group in source order), and every declared submodule path whose glob
    compiles contributes its always-ignore rule to the submodule block
    regardless of the ignore file's existence, readability or contents. -/
theorem loadIgnorePatterns_submodules_first :
    ∀ (compile : String → Option (String → Bool)) (fs : FS) (startDir : String),
    (∀ r ∈ subRulesOf compile (loadIgnorePatterns compile fs startDir).submodules,
      r.negated = false) ∧
    (∀ s m, s ∈ (loadIgnorePatterns compile fs startDir).submodules →
      compile (s ++ "/**") = some m →
      { pattern := s, regex := m, negated := false } ∈
        subRulesOf compile (loadIgnorePatterns compile fs startDir).submodules) ∧
    (∃ fileRules, (loadIgnorePatterns compile fs startDir).patterns =
      subRulesOf compile (loadIgnorePatterns compile fs startDir).submodules ++ fileRules ∧
      (fileRules = [] ∨
        ∃ content, fileRules = parseIgnorePatterns compile content)) := by
  intro compile fs startDir
  refine ⟨?_, ?_, ?_⟩
  · intro r hr
    rw [subRulesOf, List.mem_filterMap] at hr
    obtain ⟨s, _, hmap⟩ := hr
    cases hc : compile (s ++ "/**") with
    | none => rw [hc] at hmap; exact absurd hmap (by simp)
    | some m =>
      rw [hc] at hmap
      have h2 : ({ pattern := s, regex := m, negated := false } : IgnorePattern) = r := by
        simpa using hmap
      rw [← h2]
  · intro s m hs hm
    rw [subRulesOf, List.mem_filterMap]
    exact ⟨s, hs, by rw [hm]; rfl⟩
  · cases hr : findGitignore fs startDir with
    | none =>
      refine ⟨[], ?_, Or.inl rfl⟩
      simp only [loadIgnorePatterns, hr, List.append_nil]
    | some pr =>
      obtain ⟨filePath, rd⟩ := pr
      cases hread : fs.readTextFile filePath with
      | none =>
        refine ⟨[], ?_, Or.inl rfl⟩
        simp only [loadIgnorePatterns, hr, hread, List.append_nil]
      | some content =>
        refine ⟨parseIgnorePatterns compile content, ?_, Or.inr ⟨content, rfl⟩⟩
        simp only [loadIgnorePatterns, hr, hread]

/-- C6 witness: with no ignore file anywhere and one declared submodule, the
    submodule's compiled always-ignore rule is in the submodule block. -/
theorem loadIgnorePatterns_submodules_first_witness :
    { pattern := "sub", regex := fun p => p == "sub" ++ "/**", negated := false } ∈
      subRulesOf (fun g => some (fun p => p == g))
        (loadIgnorePatterns (fun g => some (fun p => p == g))
          { stat := fun _ => false
            readTextFile := fun p => if p == "r/.gitmodules" then some "path = sub" else none }
          "r").submodules := by
  have hfg : findGitignore
      { stat := fun _ => false
        readTextFile := fun p => if p == "r/.gitmodules" then some "path = sub" else none }
      "r" = none := by
    simp [findGitignore, parentDirOf, lastSlashTake]
  have hsub : (loadIgnorePatterns (fun g => some (fun p => p == g))
      { stat := fun _ => false
        readTextFile := fun p => if p == "r/.gitmodules" then some "path = sub" else none }
      "r").submodules = ["sub"] := by
    simp only [loadIgnorePatterns, hfg]
    decide
  refine (loadIgnorePatterns_submodules_first (fun g => some (fun p => p == g))
    { stat := fun _ => false
      readTextFile := fun p => if p == "r/.gitmodules" then some "path = sub" else none }
    "r").2.1 "sub" (fun p => p == "sub" ++ "/**") ?_ rfl
  rw [hsub]
  decide

/- ===================== C7 ===================== -/

theorem findGitignore_unfold (fs : FS) (s : String) :
    findGitignore fs s =
      if fs.stat (s ++ "/.gitignore") = true then some (s ++ "/.gitignore", s)
      else if (parentDirOf s == "" || parentDirOf s == s) = true then none
      else findGitignore fs (parentDirOf s) := by
  rw [findGitignore]
  simp only [dite_eq_ite]

theorem ancestorChain_unfold (s : String) :
    ancestorChain s =
      s :: (if (parentDirOf s == "" || parentDirOf s == s) = true then []
        else ancestorChain (parentDirOf s)) := by
  rw [ancestorChain]
  simp only [dite_eq_ite]

theorem findGitignore_eq_chain (fs : FS) : ∀ (startDir : String),
    findGitignore fs startDir =
      ((ancestorChain startDir).find? (fun a => fs.stat (a ++ "/.gitignore"))).map
        (fun a => (a ++ "/.gitignore", a)) := by
  intro s
  generalize hn : s.length = n
  induction n using Nat.strong_induction_on generalizing s with
  | _ n ih =>
    subst hn
    rw [findGitignore_unfold, ancestorChain_unfold]
    by_cases hstat : fs.stat (s ++ "/.gitignore") = true
    · rw [if_pos hstat, List.find?_cons, hstat]
      rfl
    · rw [if_neg hstat, List.find?_cons]
      simp only [hstat]
      by_cases hg : (parentDirOf s == "" || parentDirOf s == s) = true
      · rw [if_pos hg, if_pos hg]
        rfl
      · rw [if_neg hg, if_neg hg]
        exact ih (parentDirOf s).length (parentDirOf_lt s hg) (parentDirOf s) rfl

/-- C7: findGitignore walks upward and returns the nearest directory holding
    the ignore file (the first hit along the upward chain) together with the
    found file path; it returns none exactly when no directory on the chain
    has one, and in that case loadIgnorePatterns uses the starting directory
    as the root and returns only submodule-derived rules, as a normal
    (non-error) result. -/
theorem findGitignore_nearest_ancestor :
    ∀ (fs : FS) (startDir : String) (compile : String → Option (String → Bool)),
    (findGitignore fs startDir =
      ((ancestorChain startDir).find? (fun a => fs.stat (a ++ "/.gitignore"))).map
        (fun a => (a ++ "/.gitignore", a))) ∧
    (findGitignore fs startDir = none ↔
      ∀ a ∈ ancestorChain startDir, fs.stat (a ++ "/.gitignore") = false) ∧
    (findGitignore fs startDir = none →
      (loadIgnorePatterns compile fs startDir).rootDir = startDir ∧
      (loadIgnorePatterns compile fs startDir).patterns =
        subRulesOf compile (findSubmodulePaths fs startDir)) := by
  intro fs startDir compile
  refine ⟨findGitignore_eq_chain fs startDir, ?_, ?_⟩
  · rw [findGitignore_eq_chain fs startDir, Option.map_eq_none', List.find?_eq_none]
    constructor
    · intro h a ha
      have := h a ha
      rwa [Bool.not_eq_true] at this
    · intro h a ha
      rw [h a ha]
      simp
  · intro h
    exact ⟨by simp only [loadIgnorePatterns, h], by simp only [loadIgnorePatterns, h]⟩

/-- C7 witness: with no ignore file anywhere, searching from a two-level
    directory returns none and loadIgnorePatterns falls back to the starting
    directory with only submodule rules (here none, the submodule file being
    unreadable too). -/
theorem findGitignore_nearest_ancestor_witness :
    (loadIgnorePatterns (fun g => some (fun p => p == g))
      { stat := fun _ => false, readTextFile := fun _ => none } "a/b").rootDir = "a/b" ∧
    (loadIgnorePatterns (fun g => some (fun p => p == g))
      { stat := fun _ => false, readTextFile := fun _ => none } "a/b").patterns =
      subRulesOf (fun g => some (fun p => p == g))
        (findSubmodulePaths { stat := fun _ => false, readTextFile := fun _ => none } "a/b") :=
  (findGitignore_nearest_ancestor
    { stat := fun _ => false, readTextFile := fun _ => none } "a/b"
    (fun g => some (fun p => p == g))).2.2
    (by simp [findGitignore, parentDirOf, lastSlashTake])

/- ===================== C9 ===================== -/

/-- C9: the raw ignore list for the whole-tree dispatch always begins with
    every declared submodule path, verbatim and in declaration order, before
    any ignore-file-derived pattern, also when no ignore file exists or
    reading it fails; and runDenoFmt passes a single comma-joined ignore
    argument exactly when that list is non-empty. -/
theorem rawIgnoreList_submodules_first :
    ∀ (env : CmdEnv) (fs : FS) (dir : String) (checkMode : Bool),
    (∃ rest, getRawIgnorePatterns fs dir = findSubmodulePaths fs (gitRootOf fs dir) ++ rest) ∧
    (findGitignore fs dir = none → getRawIgnorePatterns fs dir = findSubmodulePaths fs dir) ∧
    (∀ filePath rootDir, findGitignore fs dir = some (filePath, rootDir) →
      fs.readTextFile filePath = none →
      getRawIgnorePatterns fs dir = findSubmodulePaths fs rootDir) ∧
    (env.avail "deno" = true →
      ∃ args, (runDenoFmt env fs dir checkMode).2 =
          [Eff.probe "deno", Eff.run "deno" args dir false] ∧
        (getRawIgnorePatterns fs dir ≠ [] →
          ("--ignore=" ++ String.intercalate "," (getRawIgnorePatterns fs dir)) ∈ args) ∧
        (getRawIgnorePatterns fs dir = [] →
          ∀ a ∈ args, jsStartsWith a "--ignore=" = false)) := by
  intro env fs dir checkMode
  refine ⟨?_, ?_, ?_, ?_⟩
  · cases hr : findGitignore fs dir with
    | none =>
      refine ⟨[], ?_⟩
      simp only [getRawIgnorePatterns, gitRootOf, hr, List.append_nil]
    | some pr =>
      obtain ⟨filePath, rd⟩ := pr
      cases hread : fs.readTextFile filePath with
      | none =>
        refine ⟨[], ?_⟩
        simp only [getRawIgnorePatterns, gitRootOf, hr, hread, List.append_nil]
      | some content =>
        refine ⟨(splitLines content).filterMap rawPatternOfLine, ?_⟩
        simp only [getRawIgnorePatterns, gitRootOf, hr, hread]
  · intro hr
    simp only [getRawIgnorePatterns, hr]
  · intro filePath rootDir hr hread
    simp only [getRawIgnorePatterns, hr, hread]
  · intro hav
    unfold runDenoFmt
    rw [hav]
    rw [if_neg (by decide : ¬((!true) = true))]
    dsimp only
    {
      refine ⟨(if 0 < (getRawIgnorePatterns fs dir).length then
          (if checkMode = true then ["fmt", "--check", "--unstable-component"]
           else ["fmt", "--unstable-component"]) ++
            ["--ignore=" ++ String.intercalate "," (getRawIgnorePatterns fs dir)]
        else (if checkMode = true then ["fmt", "--check", "--unstable-component"]
           else ["fmt", "--unstable-component"])) ++ ["."], ?_, ?_, ?_⟩
      · split <;> split <;> split <;> rfl
      · intro hne
        have hpos : 0 < (getRawIgnorePatterns fs dir).length := List.length_pos.mpr hne
        rw [if_pos hpos]
        simp
      · intro hnil
        rw [hnil]
        intro a ha
        simp only [List.length_nil, Nat.lt_irrefl, if_false] at ha
        cases hcm : checkMode <;> rw [hcm] at ha <;> revert ha <;> revert a <;> decide
    }

/-- C9 witness: with no ignore file and no readable submodule file, the raw
    list is exactly the (empty) submodule list, and with the tool available
    the deno invocation carries no ignore argument. -/
theorem rawIgnoreList_submodules_first_witness :
    (getRawIgnorePatterns { stat := fun _ => false, readTextFile := fun _ => none } "d" =
      findSubmodulePaths { stat := fun _ => false, readTextFile := fun _ => none } "d") ∧
    (∃ args, (runDenoFmt { avail := fun _ => true, exec := fun _ _ _ => (true, "") }
        { stat := fun _ => false, readTextFile := fun _ => none } "d" true).2 =
        [Eff.probe "deno", Eff.run "deno" args "d" false] ∧
      (getRawIgnorePatterns { stat := fun _ => false, readTextFile := fun _ => none } "d" ≠ [] →
        ("--ignore=" ++ String.intercalate ","
          (getRawIgnorePatterns { stat := fun _ => false, readTextFile := fun _ => none } "d"))
          ∈ args) ∧
      (getRawIgnorePatterns { stat := fun _ => false, readTextFile := fun _ => none } "d" = [] →
        ∀ a ∈ args, jsStartsWith a "--ignore=" = false)) :=
  ⟨(rawIgnoreList_submodules_first { avail := fun _ => true, exec := fun _ _ _ => (true, "") }
      { stat := fun _ => false, readTextFile := fun _ => none } "d" true).2.1
      (by simp [findGitignore, parentDirOf, lastSlashTake]),
   (rawIgnoreList_submodules_first { avail := fun _ => true, exec := fun _ _ _ => (true, "") }
      { stat := fun _ => false, readTextFile := fun _ => none } "d" true).2.2.2 rfl⟩

/- ===================== C2 ===================== -/

theorem path_data (a b : String) : (a ++ "/" ++ b).data = a.data ++ '/' :: b.data := by
  rw [String.data_append, String.data_append]
  simp

mutual

theorem mem_walkEntry_shape (ext : String) (patterns : List IgnorePattern)
    (rootDir cur : String) (e : FSEntry) (f : String)
    (hf : f ∈ walkEntry ext patterns rootDir cur e) :
    ∃ t, f.data = cur.data ++ '/' :: t := by
  cases e with
  | file name =>
    simp only [walkEntry] at hf
    split at hf
    · exact absurd hf (by simp)
    · split at hf
      · have hfe := List.mem_singleton.mp hf
        exact ⟨name.data, by rw [hfe]; exact path_data cur name⟩
      · exact absurd hf (by simp)
  | dir name children =>
    simp only [walkEntry] at hf
    split at hf
    · exact absurd hf (by simp)
    · obtain ⟨t, ht⟩ := mem_walkList_shape ext patterns rootDir (cur ++ "/" ++ name) children f hf
      refine ⟨name.data ++ '/' :: t, ?_⟩
      rw [ht, path_data]
      simp
  | symlink name => exact absurd hf (by simp [walkEntry])

theorem mem_walkList_shape (ext : String) (patterns : List IgnorePattern)
    (rootDir cur : String) (es : List FSEntry) (f : String)
    (hf : f ∈ walkList ext patterns rootDir cur es) :
    ∃ t, f.data = cur.data ++ '/' :: t := by
  cases es with
  | nil => exact absurd hf (by simp [walkList])
  | cons e rest =>
    simp only [walkList] at hf
    rcases List.mem_append.mp hf with hf1 | hf2
    · exact mem_walkEntry_shape ext patterns rootDir cur e f hf1
    · exact mem_walkList_shape ext patterns rootDir cur rest f hf2

end

theorem sf_split : ∀ (m : List Char), '/' ∉ m → ∀ (p r t : List Char),
    p ++ '/' :: r = m ++ '/' :: t →
    (p = m ∧ r = t) ∨ ∃ p2, p = m ++ '/' :: p2 ∧ t = p2 ++ '/' :: r := by
  intro m
  induction m with
  | nil =>
    intro _ p r t h
    cases p with
    | nil =>
      left
      simp at h
      exact ⟨rfl, h⟩
    | cons c p2 =>
      right
      simp at h
      obtain ⟨hc, h2⟩ := h
      subst hc
      exact ⟨p2, rfl, h2.symm⟩
  | cons a m2 ih =>
    intro hm p r t h
    have hm2 : '/' ∉ m2 := fun hx => hm (List.mem_cons_of_mem a hx)
    have ha : a ≠ '/' := fun hx => hm (hx ▸ List.mem_cons_self a m2)
    cases p with
    | nil =>
      exfalso
      simp at h
      exact ha h.1.symm
    | cons c p2 =>
      simp at h
      obtain ⟨hc, h2⟩ := h
      subst hc
      rcases ih hm2 p2 r t h2 with ⟨hp, hr⟩ | ⟨p3, hp, ht⟩
      · left
        subst hp
        exact ⟨rfl, hr⟩
      · right
        subst hp
        exact ⟨p3, rfl, ht⟩

mutual

theorem walkEntry_anc (ext : String) (patterns : List IgnorePattern) (rootDir cur : String)
    (e : FSEntry) (hwf : FSEntry.wfB e = true) (f : String)
    (hf : f ∈ walkEntry ext patterns rootDir cur e) (p rest : List Char)
    (hdec : f.data = cur.data ++ '/' :: (p ++ '/' :: rest)) :
    isIgnored (relOf rootDir ⟨cur.data ++ '/' :: p⟩) patterns = false := by
  cases e with
  | file name =>
    have hwfn : '/' ∉ name.data := by
      simp [FSEntry.wfB] at hwf
      exact hwf
    simp only [walkEntry] at hf
    split at hf
    · exact absurd hf (by simp)
    · split at hf
      · have hfe := List.mem_singleton.mp hf
        subst hfe
        rw [path_data] at hdec
        simp at hdec
        have hmem : ('/' : Char) ∈ name.data := by
          rw [hdec]
          exact List.mem_append.mpr (Or.inr (List.mem_cons_self '/' rest))
        exact absurd hmem hwfn
      · exact absurd hf (by simp)
  | symlink name => exact absurd hf (by simp [walkEntry])
  | dir name children =>
    have hwf2 : '/' ∉ name.data ∧ FSEntry.wfListB children = true := by
      simp [FSEntry.wfB, Bool.and_eq_true] at hwf
      exact hwf
    simp only [walkEntry] at hf
    split at hf
    · exact absurd hf (by simp)
    · rename_i hcond
      obtain ⟨t, ht⟩ := mem_walkList_shape ext patterns rootDir (cur ++ "/" ++ name) children f hf
      rw [path_data] at ht
      have hcomb : cur.data ++ '/' :: (p ++ '/' :: rest) =
          cur.data ++ '/' :: (name.data ++ '/' :: t) := by
        rw [← hdec, ht]
        simp [List.append_assoc]
      simp only [List.append_cancel_left_eq, List.cons.injEq, true_and] at hcomb
      have hkey : p ++ '/' :: rest = name.data ++ '/' :: t := hcomb
      rcases sf_split name.data hwf2.1 p rest t hkey with ⟨hp, _⟩ | ⟨p2, hp, htr⟩
      · subst hp
        have hfull : (cur ++ "/" ++ name : String) = ⟨cur.data ++ '/' :: name.data⟩ :=
          String.ext (path_data cur name)
        rw [← hfull]
        by_cases hlen : patterns.length > 0
        · have hnot : ¬(decide (patterns.length > 0) = true ∧
              isIgnored (relOf rootDir (cur ++ "/" ++ name)) patterns = true) := by
            intro hx
            exact hcond (by rw [Bool.and_eq_true]; exact hx)
          cases hii : isIgnored (relOf rootDir (cur ++ "/" ++ name)) patterns
          · rfl
          · exact absurd ⟨decide_eq_true hlen, hii⟩ hnot
        · have h0 : patterns = [] := List.length_eq_zero.mp (Nat.eq_zero_of_not_pos hlen)
          subst h0
          rfl
      · subst hp
        have hdec2 : f.data = (cur ++ "/" ++ name).data ++ '/' :: (p2 ++ '/' :: rest) := by
          rw [path_data, ht, htr]
        have hres := walkList_anc ext patterns rootDir (cur ++ "/" ++ name) children hwf2.2 f hf
          p2 rest hdec2
        have heq : (⟨(cur ++ "/" ++ name).data ++ '/' :: p2⟩ : String) =
            ⟨cur.data ++ '/' :: (name.data ++ '/' :: p2)⟩ := by
          rw [path_data]
          simp [List.append_assoc]
        rw [← heq]
        exact hres

theorem walkList_anc (ext : String) (patterns : List IgnorePattern) (rootDir cur : String)
    (es : List FSEntry) (hwf : FSEntry.wfListB es = true) (f : String)
    (hf : f ∈ walkList ext patterns rootDir cur es) (p rest : List Char)
    (hdec : f.data = cur.data ++ '/' :: (p ++ '/' :: rest)) :
    isIgnored (relOf rootDir ⟨cur.data ++ '/' :: p⟩) patterns = false := by
  cases es with
  | nil => exact absurd hf (by simp [walkList])
  | cons e rest2 =>
    have hwf2 : FSEntry.wfB e = true ∧ FSEntry.wfListB rest2 = true := by
      simp [FSEntry.wfListB, Bool.and_eq_true] at hwf
      exact hwf
    simp only [walkList] at hf
    rcases List.mem_append.mp hf with hf1 | hf2
    · exact walkEntry_anc ext patterns rootDir cur e hwf2.1 f hf1 p rest hdec
    · exact walkList_anc ext patterns rootDir cur rest2 hwf2.2 f hf2 p rest hdec

end

/-- C2: during the findFiles walk, a directory entry whose relative path is
    ignored (with a non-empty rule list) is never descended into, so no file
    beneath such a directory ever appears in the result even when a later
    negation rule matches a file nested inside it: every returned file has
    every strict ancestor below the walk root evaluated not-ignored. -/
theorem findFiles_prunes_ignored_dirs :
    ∀ (ext : String) (patterns : List IgnorePattern) (dir rootDir : String)
      (entries : List FSEntry),
    (∀ name children, patterns ≠ [] →
      isIgnored (relOf rootDir (dir ++ "/" ++ name)) patterns = true →
      walkEntry ext patterns rootDir dir (FSEntry.dir name children) = []) ∧
    (FSEntry.wfListB entries = true →
      ∀ f ∈ findFiles dir ext patterns rootDir entries, ∀ (p rest : List Char),
        f.data = dir.data ++ '/' :: (p ++ '/' :: rest) →
        isIgnored (relOf rootDir ⟨dir.data ++ '/' :: p⟩) patterns = false) := by
  intro ext patterns dir rootDir entries
  constructor
  · intro name children hne hig
    have hlen : patterns.length > 0 := List.length_pos.mpr hne
    simp only [walkEntry]
    rw [if_pos]
    rw [Bool.and_eq_true]
    exact ⟨decide_eq_true hlen, hig⟩
  · intro hwf f hf p rest hdec
    exact walkList_anc ext patterns rootDir dir entries hwf f hf p rest hdec

/-- C2 witness: with a rule ignoring the build directory, the walker returns
    nothing from the build subtree even though a negated rule re-includes a
    file inside it, and for the returned file under src the ancestor src was
    evaluated not-ignored. -/
theorem findFiles_prunes_ignored_dirs_witness :
    (walkEntry ".nix"
      [{ pattern := "build", regex := fun s => s == "build", negated := false },
       { pattern := "!build/x.nix", regex := fun s => s == "build/x.nix", negated := true }]
      "r" "r" (FSEntry.dir "build" [FSEntry.file "x.nix"]) = []) ∧
    isIgnored (relOf "r" ⟨("r" : String).data ++ '/' :: ("src" : String).data⟩)
      [{ pattern := "build", regex := fun s => s == "build", negated := false },
       { pattern := "!build/x.nix", regex := fun s => s == "build/x.nix", negated := true }]
      = false := by
  constructor
  · exact (findFiles_prunes_ignored_dirs ".nix"
      [{ pattern := "build", regex := fun s => s == "build", negated := false },
       { pattern := "!build/x.nix", regex := fun s => s == "build/x.nix", negated := true }]
      "r" "r" [FSEntry.dir "src" [FSEntry.file "a.nix"]]).1 "build" [FSEntry.file "x.nix"]
      (List.cons_ne_nil _ _) (by decide)
  · exact (findFiles_prunes_ignored_dirs ".nix"
      [{ pattern := "build", regex := fun s => s == "build", negated := false },
       { pattern := "!build/x.nix", regex := fun s => s == "build/x.nix", negated := true }]
      "r" "r" [FSEntry.dir "src" [FSEntry.file "a.nix"]]).2 (by decide) "r/src/a.nix"
      (by decide) ("src" : String).data ("a.nix" : String).data (by decide)

/-- C3 counterexample: the bare separator pattern ends with a path separator,
    yet its compiled glob is the empty string with no ** appended: the
    leading-separator strip runs first and leaves nothing for the
    trailing-separator rule to extend. -/
theorem parseIgnorePatterns_line_rules_cx :
    jsEndsWith "/" "/" = true ∧ globPatternOf "/" = "" ∧
    ∀ base : String, globPatternOf "/" ≠ base ++ "**" := by
  refine ⟨by decide, by decide, ?_⟩
  intro base h
  have h0 : globPatternOf "/" = "" := by decide
  rw [h0] at h
  have h2 := congrArg String.length h
  rw [String.length_append] at h2
  have h3 : ("**" : String).length = 2 := rfl
  rw [h3] at h2
  have h4 : ("" : String).length = 0 := rfl
  rw [h4] at h2
  omega

/-- C1 witness: a path matching none of the rules in a concrete singleton
    rule list is kept. -/
theorem isIgnored_last_match_wins_witness :
    isIgnored "a.txt"
      [{ pattern := "build", regex := fun s => s == "build", negated := false }] = false :=
  isIgnored_last_match_wins.2.2 "a.txt"
    [{ pattern := "build", regex := fun s => s == "build", negated := false }]
    (by
      intro r hr
      rw [List.mem_singleton] at hr
      subst hr
      decide)
